import Mathlib

set_option maxHeartbeats 1000000

/-!
Verification of the rotated-log range query engine of this repository
(`ParseRotatedLog` in `python/cpuTestUtilities.py`).

The engine is shallowly embedded: the filesystem is a map from rotation
index to optional file content (a rotated file and its gzipped variant are
content-transparent, so both are modelled by the same optional content);
the shell pipeline (`cat`/`gzip -d` → `tr -d '\000'` → optional `awk`
range filter → `grep` filters → optional keyword `grep -Fi` → `head`/`tail`
limit) is modelled stage by stage on the list of lines of the file; the
Python collection loop over `reversed(lines)` and the recursion over
rotation indices are modelled directly.  String operations (`strip`,
lexicographic comparison as performed by awk on non-numeric fields,
case-insensitive containment for `grep -Fi`) are implemented on `List Char`
so that every definition evaluates inside the kernel.
-/

/-- Model of Python `str.strip()`: remove leading and trailing whitespace. -/

def pyStrip (s : String) : String :=
  String.mk (((s.data.dropWhile Char.isWhitespace).reverse.dropWhile Char.isWhitespace).reverse)

/-- Model of `tr -d '\000'`: delete NUL characters from a line. -/

def stripNulls (s : String) : String :=
  String.mk (s.data.filter (fun c => c != Char.ofNat 0))

/-- Model of awk field `$1` under `-F,`: the text before the first comma,
or the whole line when the line has no comma. -/

def awkField1 (s : String) : String :=
  String.mk (s.data.takeWhile (fun c => c != ','))

/-- Model of Python `line.split(',', 1)` when it yields two parts:
the text before the first comma and the text after it; `none` when the
line contains no comma (in which case the Python code raises `IndexError`
on `parts[1]`). -/

def splitFirstComma (s : String) : Option (String × String) :=
  if s.data.contains ',' then
    some (String.mk (s.data.takeWhile (fun c => c != ',')),
          String.mk ((s.data.dropWhile (fun c => c != ',')).drop 1))
  else none

/-- Python truthiness of an optional string argument (`if cursor:`):
present and non-empty. -/

def truthy : Option String → Bool
  | none => false
  | some s => s != ""

/-- Lexicographic strict comparison of character lists, as awk compares
non-numeric strings. -/

def charListLtb : List Char → List Char → Bool
  | [], [] => false
  | [], _ :: _ => true
  | _ :: _, [] => false
  | a :: as, b :: bs => a < b || (a == b && charListLtb as bs)

/-- Strict string comparison used by the awk range conditions. -/

def strLtb (a b : String) : Bool := charListLtb a.data b.data

/-- Non-strict string comparison used by the awk range conditions. -/

def strLeb (a b : String) : Bool := strLtb a b || a == b

/-- Model of the awk program built at lines 226–245 of the source, applied
to one line: the conjunction of the cursor condition (direction- and
inclusivity-dependent) and, when `endcursor` is truthy, the end-cursor
condition.  The compared token is awk's `$1` under `-F,`. -/

def awkKeep (cursor : String) (endcursor : Option String)
    (includecursor includeendcursor forward : Bool) (line : String) : Bool :=
  (if forward then
     (if includecursor then strLeb cursor (awkField1 line) else strLtb cursor (awkField1 line))
   else
     (if includecursor then strLeb (awkField1 line) cursor else strLtb (awkField1 line) cursor)) &&
  (match endcursor with
   | none => true
   | some e =>
     if e != "" then
       (if forward then
          (if includeendcursor then strLeb (awkField1 line) e else strLtb (awkField1 line) e)
        else
          (if includeendcursor then strLeb e (awkField1 line) else strLtb e (awkField1 line)))
     else true)

/-- Stage modelling the optional awk range filter: it is inserted into the
pipeline only when `cursor` is truthy (source line 226); otherwise the
lines pass through unfiltered. -/

def cursorStage (cursor endcursor : Option String)
    (includecursor includeendcursor forward : Bool) (lines : List String) : List String :=
  if truthy cursor then
    lines.filter (awkKeep (cursor.getD "") endcursor includecursor includeendcursor forward)
  else lines

/-- Stage modelling the `grep` filter chain: each configured grep is
modelled as a per-line keep-predicate, applied in order. -/

def grepsStage (greps : List (String → Bool)) (lines : List String) : List String :=
  greps.foldl (fun ls g => ls.filter g) lines

/-- Case-insensitive prefix test on character lists. -/

def charsStartWith : List Char → List Char → Bool
  | _, [] => true
  | [], _ :: _ => false
  | h :: hs, n :: ns => h == n && charsStartWith hs ns

/-- Containment test on character lists. -/

def charsContain : List Char → List Char → Bool
  | [], needle => needle.isEmpty
  | h :: t, needle => charsStartWith (h :: t) needle || charsContain t needle

/-- Model of `grep -Fi keyword`: case-insensitive substring containment. -/

def containsCI (keyword line : String) : Bool :=
  charsContain (line.data.map Char.toLower) (keyword.data.map Char.toLower)

/-- Stage modelling the optional keyword filter (`grep -Fi`, source
line 250), inserted only when `keyword` is truthy. -/

def keywordStage (keyword : Option String) (lines : List String) : List String :=
  if truthy keyword then lines.filter (containsCI (keyword.getD "")) else lines

/-- Stage modelling the limit truncation (source lines 253–257):
`tail -n limit` (the last `limit` lines) for a backward query,
`head -n limit` (the first `limit` lines) for a forward query. -/

def limitStage (limit : Option Nat) (forward : Bool) (lines : List String) : List String :=
  match limit with
  | none => lines
  | some n => if forward then lines.take n else lines.drop (lines.length - n)

/-- The whole per-file shell pipeline of the source, lines 217–257:
decompress (content-transparent), `tr -d '\000'`, optional awk range
filter, grep chain, optional keyword grep, optional `head`/`tail` limit. -/

def pipelineLines (cursor endcursor : Option String)
    (includecursor includeendcursor forward : Bool)
    (greps : List (String → Bool)) (keyword : Option String)
    (limit : Option Nat) (content : List String) : List String :=
  limitStage limit forward
    (keywordStage keyword
      (grepsStage greps
        (cursorStage cursor endcursor includecursor includeendcursor forward
          (content.map stripNulls))))

/-- Model of the body of the `try` block at source lines 271–273: split the
stripped line at the first comma and hand both stripped parts to
`logparserfn`; `none` both for the caught `IndexError` (no comma) and for a
parser that returns `None`. -/

def parseEntry {α : Type} (logparserfn : String → String → Option α) (line : String) : Option α :=
  match splitFirstComma line with
  | none => none
  | some (tok, payload) => logparserfn (pyStrip tok) (pyStrip payload)

/-- One line's contribution to the entry list: the stripped line must be
non-empty and must parse. -/

def lineEntry {α : Type} (logparserfn : String → String → Option α) (line : String) : Option α :=
  if pyStrip line = "" then none else parseEntry logparserfn (pyStrip line)

/-- Model of the Python collection loop at source lines 265–282, already
applied to the reversed line list: strip each line, skip empty lines, skip
lines that fail to parse, append parsed entries, and when a limit is given
decrement it per appended entry and break once it reaches zero.  Returns
the collected entries together with the remaining limit. -/

def collectLoop {α : Type} (logparserfn : String → String → Option α) :
    List String → Option Nat → List α × Option Nat
  | [], limit => ([], limit)
  | line :: rest, limit =>
    if pyStrip line = "" then collectLoop logparserfn rest limit
    else
      match parseEntry logparserfn (pyStrip line) with
      | none => collectLoop logparserfn rest limit
      | some entry =>
        match limit with
        | none =>
          let r := collectLoop logparserfn rest none
          (entry :: r.1, r.2)
        | some n =>
          if n - 1 = 0 then ([entry], some (n - 1))
          else
            let r := collectLoop logparserfn rest (some (n - 1))
            (entry :: r.1, r.2)

/-- The keyword arguments of `ParseRotatedLog`, minus the internal `rotate`
parameter.  `greps` entries are modelled as per-line keep-predicates. -/

structure LogQuery (α : Type) where
  maxrotate : Nat := 9
  cursor : Option String := none
  includecursor : Bool := false
  endcursor : Option String := none
  includeendcursor : Bool := false
  forward : Bool := false
  greps : List (String → Bool) := []
  keyword : Option String := none
  limit : Option Nat := none
  logparserfn : String → String → Option α

/-- The default `logparserfn` substituted at source lines 182–183:
`lambda cursor, line: (cursor, line)`. -/

def defaultLogParserFn : String → String → Option (String × String) :=
  fun cursor line => some (cursor, line)

/-- The recursive body of `ParseRotatedLog` (source lines 171–304) for a
given current rotation index.  `files` maps a rotation index to the content
of the corresponding log file (`none` when neither the plain nor the
gzipped rotated file exists).  `fuel` is a structural-termination device
only: the recursion moves `rotate` one step toward the failing bound each
call, so any `fuel ≥ maxrotate + 2` is enough for the fuel to never run
out before the `rotate < 0 ∨ rotate > maxrotate` guard returns. -/

def parseRotatedLogAux {α : Type} (files : Nat → Option (List String)) (q : LogQuery α) :
    Nat → Int → Option Nat → List α
  | 0, _, _ => []
  | fuel + 1, rotate, limit =>
    if rotate < 0 ∨ rotate > (q.maxrotate : Int) then []
    else
      match files rotate.toNat with
      | none =>
        if ¬q.forward ∧ rotate > 0 then []
        else
          parseRotatedLogAux files q fuel (if q.forward then rotate - 1 else rotate + 1) limit
      | some content =>
        let r := collectLoop q.logparserfn
          (pipelineLines q.cursor q.endcursor q.includecursor q.includeendcursor q.forward
            q.greps q.keyword limit content).reverse limit
        if r.2 = none ∨ 0 < r.2.getD 0 then
          let rotated := parseRotatedLogAux files q fuel
            (if q.forward then rotate - 1 else rotate + 1) r.2
          if q.forward then rotated ++ r.1 else r.1 ++ rotated
        else r.1

/-- The public entry point `ParseRotatedLog(logfile, ...)` with
`rotate=None`: start from rotation `maxrotate` for a forward query and
from the live file (rotation `0`) for a backward query. -/

def ParseRotatedLog {α : Type} (files : Nat → Option (List String)) (q : LogQuery α) : List α :=
  parseRotatedLogAux files q (q.maxrotate + 2)
    (if q.forward then (q.maxrotate : Int) else 0) q.limit

/-- Instrumented twin of `parseRotatedLogAux` recording the rotation
indices at which the engine performs file-existence probes
(`os.path.isfile`, source lines 190 and 194): every in-range visited index
is probed before anything else happens for that index. -/

def parseRotatedLogProbesAux {α : Type} (files : Nat → Option (List String)) (q : LogQuery α) :
    Nat → Int → Option Nat → List Int
  | 0, _, _ => []
  | fuel + 1, rotate, limit =>
    if rotate < 0 ∨ rotate > (q.maxrotate : Int) then []
    else
      match files rotate.toNat with
      | none =>
        if ¬q.forward ∧ rotate > 0 then [rotate]
        else
          rotate :: parseRotatedLogProbesAux files q fuel
            (if q.forward then rotate - 1 else rotate + 1) limit
      | some content =>
        let r := collectLoop q.logparserfn
          (pipelineLines q.cursor q.endcursor q.includecursor q.includeendcursor q.forward
            q.greps q.keyword limit content).reverse limit
        if r.2 = none ∨ 0 < r.2.getD 0 then
          rotate :: parseRotatedLogProbesAux files q fuel
            (if q.forward then rotate - 1 else rotate + 1) r.2
        else [rotate]

/-- File-existence probes performed by a whole query. -/

def ParseRotatedLogProbes {α : Type} (files : Nat → Option (List String)) (q : LogQuery α) : List Int :=
  parseRotatedLogProbesAux files q (q.maxrotate + 2)
    (if q.forward then (q.maxrotate : Int) else 0) q.limit

/-- A filesystem with only the live (unrotated) log present. -/

def singleLiveFile (content : List String) : Nat → Option (List String)
  | 0 => some content
  | _ + 1 => none

/-! ### The comparator table of the specification, and well-formed lines -/

/-- The direction-dependent comparator table as the specification states it
(section 4.3): for `backward`, keep iff token ≤ cursor (or < if exclusive)
and, when an endCursor is present, token ≥ endCursor (or > if exclusive);
for `forward`, the mirrored conditions.  Stated on the line's token. -/

def specKeepClaim (forward includecursor includeendcursor : Bool)
    (c : String) (endcursor : Option String) (tok : String) : Prop :=
  (if forward = true then
     (if includecursor = true then strLeb c tok = true else strLtb c tok = true)
   else
     (if includecursor = true then strLeb tok c = true else strLtb tok c = true)) ∧
  (∀ e, endcursor = some e → e ≠ "" →
    (if forward = true then
       (if includeendcursor = true then strLeb tok e = true else strLtb tok e = true)
     else
       (if includeendcursor = true then strLeb e tok = true else strLtb e tok = true)))

/-- A line is well formed when it contains no NUL bytes, no surrounding
whitespace, and its awk token has no trailing whitespace: then the token
the awk filter compares and the token the Python loop hands to the parser
coincide. -/

def wfLine (l : String) : Prop :=
  stripNulls l = l ∧ pyStrip l = l ∧ pyStrip (awkField1 l) = awkField1 l

/-- Every line of every present file is well formed. -/

def wfFiles (files : Nat → Option (List String)) : Prop :=
  ∀ i content, files i = some content → ∀ l ∈ content, wfLine l

/-! ### Limit monotonicity for backward queries over fully parseable logs -/

/-- Every line of every present file (after NUL stripping) yields an entry:
non-empty once stripped, containing a separator, and accepted by the parser. -/

def allParse {α : Type} (p : String → String → Option α)
    (files : Nat → Option (List String)) : Prop :=
  ∀ i content, files i = some content → ∀ l ∈ content, lineEntry p (stripNulls l) ≠ none

/-! ### Closed form of an unlimited walk over gap-free logs -/

/-- Concatenation of per-rotation entry blocks, `k` blocks starting at
rotation `r`. -/

def concatUp {α : Type} (E : Nat → List α) : Nat → Nat → List α
  | _, 0 => []
  | r, k + 1 => E r ++ concatUp E (r + 1) k

/-- The entries one rotation file contributes to an unlimited query. -/

def fileEntries {α : Type} (files : Nat → Option (List String)) (q : LogQuery α) (j : Nat) :
    List α :=
  match files j with
  | none => []
  | some content =>
    (collectLoop q.logparserfn
      (pipelineLines q.cursor q.endcursor q.includecursor q.includeendcursor q.forward
        q.greps q.keyword none content).reverse none).1

/-! ### Concrete log sets and queries used by the claims -/

/-- Rotations 0, 1 and 3 present, rotation 2 missing. -/

def filesC4 : Nat → Option (List String)
  | 0 => some ["t5,l0", "t6,l1"]
  | 1 => some ["t3,r1", "t4,r2"]
  | 3 => some ["t1,x1", "t2,x2"]
  | _ => none

def qC4 : LogQuery (String × String) :=
  { maxrotate := 5, logparserfn := defaultLogParserFn }

def qC4fwd : LogQuery (String × String) :=
  { maxrotate := 5, forward := true, logparserfn := defaultLogParserFn }

/-- A parser that rejects the token `b` by returning `None`. -/

def parserC10 : String → String → Option (String × String) :=
  fun tok payload => if tok = "b" then none else some (tok, payload)

def filesC10 : Nat → Option (List String)
  | 0 => some ["a,x", "b,y", "c,z"]
  | 1 => some ["p,q"]
  | _ => none

def qC10 : LogQuery (String × String) :=
  { limit := some 2, logparserfn := parserC10 }

/-- A live file whose limit window contains a separator-less line, plus one
rotated file. -/

def filesC5 : Nat → Option (List String)
  | 0 => some ["a,x", "c,z", "bad"]
  | 1 => some ["p,q"]
  | _ => none

/-- The same query with its `limit` field ignored (the walker never reads
`q.limit`; the public wrapper passes it as the initial running limit, and
this variant passes `none` instead). -/

def ParseRotatedLogNoLimit {α : Type} (files : Nat → Option (List String)) (q : LogQuery α) :
    List α :=
  parseRotatedLogAux files q (q.maxrotate + 2)
    (if q.forward = true then (q.maxrotate : Int) else 0) none

/-! ### Order facts about the awk string comparison -/

theorem charListLtb_irrefl (a : List Char) : charListLtb a a = false := by
  induction a with
  | nil => rfl
  | cons x xs ih =>
    simp [charListLtb, ih, decide_eq_false (lt_irrefl x)]

theorem charListLtb_trans {a b c : List Char}
    (hab : charListLtb a b = true) (hbc : charListLtb b c = true) :
    charListLtb a c = true := by
  induction a generalizing b c with
  | nil =>
    cases b with
    | nil => simp [charListLtb] at hab
    | cons y ys =>
      cases c with
      | nil => simp [charListLtb] at hbc
      | cons z zs => simp [charListLtb]
  | cons x xs ih =>
    cases b with
    | nil => simp [charListLtb] at hab
    | cons y ys =>
      cases c with
      | nil => simp [charListLtb] at hbc
      | cons z zs =>
        simp only [charListLtb, Bool.or_eq_true, Bool.and_eq_true, decide_eq_true_eq,
          beq_iff_eq] at hab hbc ⊢
        rcases hab with h1 | ⟨he1, h1⟩
        · rcases hbc with h2 | ⟨he2, h2⟩
          · exact Or.inl (lt_trans h1 h2)
          · subst he2; exact Or.inl h1
        · subst he1
          rcases hbc with h2 | ⟨he2, h2⟩
          · exact Or.inl h2
          · subst he2; exact Or.inr ⟨rfl, ih h1 h2⟩

theorem strLtb_trans {a b c : String}
    (hab : strLtb a b = true) (hbc : strLtb b c = true) : strLtb a c = true :=
  charListLtb_trans hab hbc

theorem strLtb_irrefl (a : String) : strLtb a a = false := charListLtb_irrefl a.data

theorem strLeb_iff (a b : String) : strLeb a b = true ↔ strLtb a b = true ∨ a = b := by
  simp [strLeb, Bool.or_eq_true, beq_iff_eq]

theorem strLtb_le {a b : String} (h : strLtb a b = true) : strLeb a b = true :=
  (strLeb_iff a b).mpr (Or.inl h)

theorem strOrder_absurd {t c e : String}
    (hce : strLtb c e = true) (htc : strLeb t c = true) (het : strLeb e t = true) : False := by
  rcases (strLeb_iff t c).mp htc with h1 | h1 <;> rcases (strLeb_iff e t).mp het with h2 | h2
  · have : strLtb e e = true := strLtb_trans (strLtb_trans h2 h1) hce
    simp [strLtb_irrefl] at this
  · rw [h2] at hce
    have : strLtb t t = true := strLtb_trans h1 hce
    simp [strLtb_irrefl] at this
  · rw [h1] at h2
    have : strLtb e e = true := strLtb_trans h2 hce
    simp [strLtb_irrefl] at this
  · rw [h2, h1] at hce
    simp [strLtb_irrefl] at hce

/-! ### Lemmas about the collection loop -/

theorem collectLoop_none {α : Type} (p : String → String → Option α) (ls : List String) :
    collectLoop p ls none = (ls.filterMap (lineEntry p), none) := by
  induction ls with
  | nil => rfl
  | cons l rest ih =>
    by_cases h : pyStrip l = ""
    · simp [collectLoop, h, ih, lineEntry, List.filterMap_cons]
    · cases hp : parseEntry p (pyStrip l) with
      | none => simp [collectLoop, h, hp, ih, lineEntry, List.filterMap_cons]
      | some e => simp [collectLoop, h, hp, ih, lineEntry, List.filterMap_cons]

theorem collectLoop_snd {α : Type} (p : String → String → Option α) (ls : List String) (n : Nat) :
    (collectLoop p ls (some n)).2 = some (n - (collectLoop p ls (some n)).1.length) := by
  induction ls generalizing n with
  | nil => simp [collectLoop]
  | cons l rest ih =>
    by_cases h : pyStrip l = ""
    · simpa [collectLoop, h] using ih n
    · cases hp : parseEntry p (pyStrip l) with
      | none => simpa [collectLoop, h, hp] using ih n
      | some e =>
        by_cases hn : n - 1 = 0
        · simp [collectLoop, h, hp, hn]
        · have hih := ih (n - 1)
          simp only [collectLoop, if_neg h, hp, if_neg hn, hih, List.length_cons,
            Option.some.injEq]
          omega

theorem collectLoop_length_le {α : Type} (p : String → String → Option α)
    (ls : List String) (lim : Option Nat) :
    (collectLoop p ls lim).1.length ≤ ls.length := by
  induction ls generalizing lim with
  | nil => simp [collectLoop]
  | cons l rest ih =>
    by_cases h : pyStrip l = ""
    · simpa [collectLoop, h] using Nat.le_succ_of_le (ih lim)
    · cases hp : parseEntry p (pyStrip l) with
      | none => simpa [collectLoop, h, hp] using Nat.le_succ_of_le (ih lim)
      | some e =>
        cases lim with
        | none => simpa [collectLoop, h, hp] using ih none
        | some n =>
          by_cases hn : n - 1 = 0
          · simp [collectLoop, h, hp, hn]
          · simpa [collectLoop, h, hp, hn] using ih (some (n - 1))

theorem collectLoop_mem {α : Type} {p : String → String → Option α}
    {ls : List String} {lim : Option Nat} {e : α}
    (he : e ∈ (collectLoop p ls lim).1) : ∃ l ∈ ls, lineEntry p l = some e := by
  induction ls generalizing lim with
  | nil => simp [collectLoop] at he
  | cons l rest ih =>
    by_cases h : pyStrip l = ""
    · rw [show collectLoop p (l :: rest) lim = collectLoop p rest lim by simp [collectLoop, h]] at he
      obtain ⟨l', hl', hl2⟩ := ih he
      exact ⟨l', List.mem_cons_of_mem _ hl', hl2⟩
    · cases hp : parseEntry p (pyStrip l) with
      | none =>
        rw [show collectLoop p (l :: rest) lim = collectLoop p rest lim by
          simp [collectLoop, h, hp]] at he
        obtain ⟨l', hl', hl2⟩ := ih he
        exact ⟨l', List.mem_cons_of_mem _ hl', hl2⟩
      | some x =>
        have hle : lineEntry p l = some x := by simp [lineEntry, h, hp]
        cases lim with
        | none =>
          simp only [collectLoop, if_neg (by simpa using h), hp] at he
          rcases List.mem_cons.mp he with rfl | he
          · exact ⟨l, List.mem_cons_self _ _, hle⟩
          · obtain ⟨l', hl', hl2⟩ := ih he
            exact ⟨l', List.mem_cons_of_mem _ hl', hl2⟩
        | some n =>
          by_cases hn : n - 1 = 0
          · simp only [collectLoop, if_neg (by simpa using h), hp, if_pos hn] at he
            rcases List.mem_cons.mp he with rfl | he
            · exact ⟨l, List.mem_cons_self _ _, hle⟩
            · simp at he
          · simp only [collectLoop, if_neg (by simpa using h), hp, if_neg hn] at he
            rcases List.mem_cons.mp he with rfl | he
            · exact ⟨l, List.mem_cons_self _ _, hle⟩
            · obtain ⟨l', hl', hl2⟩ := ih he
              exact ⟨l', List.mem_cons_of_mem _ hl', hl2⟩

theorem collectLoop_pairwise {α : Type} {R : α → α → Prop} {p : String → String → Option α}
    {ls : List String} (lim : Option Nat)
    (h : ls.Pairwise (fun a b => ∀ x y, lineEntry p a = some x → lineEntry p b = some y → R x y)) :
    (collectLoop p ls lim).1.Pairwise R := by
  induction ls generalizing lim with
  | nil => simp [collectLoop]
  | cons l rest ih =>
    have h1 := (List.pairwise_cons.mp h).1
    have h2 := (List.pairwise_cons.mp h).2
    by_cases hs : pyStrip l = ""
    · simpa [collectLoop, hs] using ih lim h2
    · cases hp : parseEntry p (pyStrip l) with
      | none => simpa [collectLoop, hs, hp] using ih lim h2
      | some e =>
        have hle : lineEntry p l = some e := by simp [lineEntry, hs, hp]
        cases lim with
        | none =>
          simp only [collectLoop, if_neg (by simpa using hs), hp]
          refine List.pairwise_cons.mpr ⟨?_, ih none h2⟩
          intro b hb
          obtain ⟨l', hl', hl2⟩ := collectLoop_mem hb
          exact h1 l' hl' e b hle hl2
        | some n =>
          by_cases hn : n - 1 = 0
          · simp [collectLoop, hs, hp, hn]
          · simp only [collectLoop, if_neg (by simpa using hs), hp, if_neg hn]
            refine List.pairwise_cons.mpr ⟨?_, ih (some (n - 1)) h2⟩
            intro b hb
            obtain ⟨l', hl', hl2⟩ := collectLoop_mem hb
            exact h1 l' hl' e b hle hl2

theorem collectLoop_total {α : Type} (p : String → String → Option α)
    (ls : List String) (n : Nat)
    (hall : ∀ l ∈ ls, lineEntry p l ≠ none) (hlen : ls.length ≤ n) :
    collectLoop p ls (some n) = (ls.filterMap (lineEntry p), some (n - ls.length)) := by
  induction ls generalizing n with
  | nil => simp [collectLoop]
  | cons l rest ih =>
    have hl := hall l (List.mem_cons_self _ _)
    have hs : ¬pyStrip l = "" := by
      intro hcon; exact hl (by simp [lineEntry, hcon])
    cases hp : parseEntry p (pyStrip l) with
    | none => exact absurd (by simp [lineEntry, hs, hp]) hl
    | some e =>
      have hle : lineEntry p l = some e := by simp [lineEntry, hs, hp]
      have hlen2 : rest.length + 1 ≤ n := by simpa using hlen
      by_cases hn : n - 1 = 0
      · have hn1 : n = 1 := by omega
        have hr : rest = [] := List.length_eq_zero.mp (by omega)
        subst hr
        simp [collectLoop, hs, hp, hn, hn1, List.filterMap_cons, hle]
      · have hrest : rest.length ≤ n - 1 := by omega
        have hih := ih (n - 1) (fun l' hl' => hall l' (List.mem_cons_of_mem _ hl')) hrest
        simp only [collectLoop, if_neg hs, hp, if_neg hn, hih,
          List.filterMap_cons, hle, List.length_cons, Prod.mk.injEq, Option.some.injEq]
        exact ⟨trivial, by omega⟩

/-! ### Lemmas about the pipeline stages -/

theorem grepsStage_sublist (greps : List (String → Bool)) (ls : List String) :
    (grepsStage greps ls).Sublist ls := by
  induction greps generalizing ls with
  | nil => exact List.Sublist.refl ls
  | cons g gs ih =>
    exact List.Sublist.trans (ih (ls.filter g)) (List.filter_sublist ls)

theorem cursorStage_sublist (cursor endcursor : Option String)
    (ic ie fwd : Bool) (ls : List String) :
    (cursorStage cursor endcursor ic ie fwd ls).Sublist ls := by
  unfold cursorStage
  split
  · exact List.filter_sublist ls
  · exact List.Sublist.refl ls

theorem keywordStage_sublist (kw : Option String) (ls : List String) :
    (keywordStage kw ls).Sublist ls := by
  unfold keywordStage
  split
  · exact List.filter_sublist ls
  · exact List.Sublist.refl ls

theorem limitStage_sublist (lim : Option Nat) (fwd : Bool) (ls : List String) :
    (limitStage lim fwd ls).Sublist ls := by
  cases lim with
  | none => exact List.Sublist.refl ls
  | some n =>
    by_cases h : fwd = true
    · simpa [limitStage, h] using List.take_sublist n ls
    · simpa [limitStage, h] using List.drop_sublist (ls.length - n) ls

theorem limitStage_length_le (n : Nat) (fwd : Bool) (ls : List String) :
    (limitStage (some n) fwd ls).length ≤ n := by
  by_cases h : fwd = true
  · simp [limitStage, h, List.length_take]
  · simp [limitStage, h, List.length_drop]
    omega

theorem pipelineLines_sublist (cursor endcursor : Option String)
    (ic ie fwd : Bool) (greps : List (String → Bool)) (kw : Option String)
    (lim : Option Nat) (content : List String) :
    (pipelineLines cursor endcursor ic ie fwd greps kw lim content).Sublist
      (content.map stripNulls) := by
  unfold pipelineLines
  exact ((((limitStage_sublist _ _ _).trans (keywordStage_sublist _ _)).trans
    (grepsStage_sublist _ _)).trans (cursorStage_sublist _ _ _ _ _ _))

theorem pipelineLines_awkKeep {cursor endcursor : Option String}
    {ic ie fwd : Bool} {greps : List (String → Bool)} {kw : Option String}
    {lim : Option Nat} {content : List String} {l : String}
    (ht : truthy cursor = true)
    (hl : l ∈ pipelineLines cursor endcursor ic ie fwd greps kw lim content) :
    awkKeep (cursor.getD "") endcursor ic ie fwd l = true := by
  unfold pipelineLines at hl
  have h1 : l ∈ keywordStage kw (grepsStage greps
      (cursorStage cursor endcursor ic ie fwd (content.map stripNulls))) :=
    (limitStage_sublist _ _ _).subset hl
  have h2 : l ∈ grepsStage greps
      (cursorStage cursor endcursor ic ie fwd (content.map stripNulls)) :=
    (keywordStage_sublist _ _).subset h1
  have h3 : l ∈ cursorStage cursor endcursor ic ie fwd (content.map stripNulls) :=
    (grepsStage_sublist _ _).subset h2
  unfold cursorStage at h3
  rw [if_pos ht] at h3
  exact (List.mem_filter.mp h3).2

/-! ### Totality helpers for well-formed logs -/

theorem filterMap_take_of_total {α β : Type} (f : α → Option β) (ls : List α) (n : Nat)
    (h : ∀ x ∈ ls, f x ≠ none) :
    (ls.take n).filterMap f = (ls.filterMap f).take n := by
  induction ls generalizing n with
  | nil => simp
  | cons x rest ih =>
    cases n with
    | zero => simp
    | succ n =>
      cases hf : f x with
      | none => exact absurd hf (h x (List.mem_cons_self _ _))
      | some y =>
        simp only [List.take_succ_cons, List.filterMap_cons, hf]
        rw [ih n (fun x' hx' => h x' (List.mem_cons_of_mem _ hx'))]

theorem length_filterMap_of_total {α β : Type} (f : α → Option β) (ls : List α)
    (h : ∀ x ∈ ls, f x ≠ none) :
    (ls.filterMap f).length = ls.length := by
  induction ls with
  | nil => simp
  | cons x rest ih =>
    cases hf : f x with
    | none => exact absurd hf (h x (List.mem_cons_self _ _))
    | some y =>
      simp only [List.filterMap_cons, hf, List.length_cons]
      rw [ih (fun x' hx' => h x' (List.mem_cons_of_mem _ hx'))]

theorem take_min_length {α : Type} (ls : List α) (n : Nat) :
    ls.take (min n ls.length) = ls.take n := by
  rcases le_total n ls.length with h | h
  · rw [Nat.min_eq_left h]
  · rw [Nat.min_eq_right h, List.take_length]
    exact (List.take_of_length_le h).symm

theorem awkKeep_iff_specKeep (c : String) (e : Option String) (ic ie fwd : Bool) (l : String) :
    awkKeep c e ic ie fwd l = true ↔ specKeepClaim fwd ic ie c e (awkField1 l) := by
  unfold awkKeep specKeepClaim
  cases e with
  | none => cases fwd <;> cases ic <;> simp
  | some e0 =>
    by_cases he : e0 = ""
    · subst he; cases fwd <;> cases ic <;> cases ie <;> simp
    · cases fwd <;> cases ic <;> cases ie <;> simp [he]

theorem map_stripNulls_of_wf {content : List String}
    (h : ∀ l ∈ content, wfLine l) : content.map stripNulls = content := by
  have h2 : ∀ a ∈ content, stripNulls a = id a := fun a ha => (h a ha).1
  rw [List.map_congr_left h2, List.map_id]

theorem pipelineLines_subset_of_wf {cursor endcursor : Option String}
    {ic ie fwd : Bool} {greps : List (String → Bool)} {kw : Option String}
    {lim : Option Nat} {content : List String} {l : String}
    (hwf : ∀ l' ∈ content, wfLine l')
    (hl : l ∈ pipelineLines cursor endcursor ic ie fwd greps kw lim content) :
    l ∈ content := by
  have := (pipelineLines_sublist cursor endcursor ic ie fwd greps kw lim content).subset hl
  rwa [map_stripNulls_of_wf hwf] at this

theorem lineEntry_default_fst {l : String} {p : String × String}
    (hwf : wfLine l) (hp : lineEntry defaultLogParserFn l = some p) : p.1 = awkField1 l := by
  obtain ⟨h0, h1, h2⟩ := hwf
  unfold lineEntry at hp
  rw [h1] at hp
  by_cases hs : l = ""
  · rw [if_pos hs] at hp
    exact absurd hp (by simp)
  · rw [if_neg hs] at hp
    unfold parseEntry at hp
    cases hsp : splitFirstComma l with
    | none => rw [hsp] at hp; exact absurd hp (by simp)
    | some tr =>
      obtain ⟨t, r⟩ := tr
      rw [hsp] at hp
      have hpt : p = (pyStrip t, pyStrip r) := by
        simpa [defaultLogParserFn] using hp.symm
      have ht : t = awkField1 l := by
        unfold splitFirstComma at hsp
        by_cases hc : l.data.contains ','
        · rw [if_pos hc] at hsp
          have h' := congrArg Prod.fst (Option.some.inj hsp)
          simpa [awkField1] using h'.symm
        · rw [if_neg hc] at hsp
          exact absurd hsp (by simp)
      rw [hpt, ht]
      exact h2

/-! ### Step lemmas for the recursive walker -/

theorem aux_zero {α : Type} (files : Nat → Option (List String)) (q : LogQuery α)
    (rotate : Int) (lim : Option Nat) :
    parseRotatedLogAux files q 0 rotate lim = [] := rfl

theorem aux_out {α : Type} (files : Nat → Option (List String)) (q : LogQuery α)
    (fuel : Nat) (rotate : Int) (lim : Option Nat)
    (hg : rotate < 0 ∨ rotate > (q.maxrotate : Int)) :
    parseRotatedLogAux files q (fuel + 1) rotate lim = [] := by
  rw [parseRotatedLogAux, if_pos hg]

theorem aux_step_missing {α : Type} (files : Nat → Option (List String)) (q : LogQuery α)
    (fuel : Nat) (rotate : Int) (lim : Option Nat)
    (hg : ¬(rotate < 0 ∨ rotate > (q.maxrotate : Int)))
    (hf : files rotate.toNat = none) :
    parseRotatedLogAux files q (fuel + 1) rotate lim =
      if ¬q.forward = true ∧ rotate > 0 then []
      else parseRotatedLogAux files q fuel
        (if q.forward = true then rotate - 1 else rotate + 1) lim := by
  rw [parseRotatedLogAux, if_neg hg, hf]

theorem aux_step_present {α : Type} (files : Nat → Option (List String)) (q : LogQuery α)
    (fuel : Nat) (rotate : Int) (lim : Option Nat) (content : List String)
    (hg : ¬(rotate < 0 ∨ rotate > (q.maxrotate : Int)))
    (hf : files rotate.toNat = some content) :
    parseRotatedLogAux files q (fuel + 1) rotate lim =
      (if (collectLoop q.logparserfn
            (pipelineLines q.cursor q.endcursor q.includecursor q.includeendcursor q.forward
              q.greps q.keyword lim content).reverse lim).2 = none ∨
          0 < ((collectLoop q.logparserfn
            (pipelineLines q.cursor q.endcursor q.includecursor q.includeendcursor q.forward
              q.greps q.keyword lim content).reverse lim).2).getD 0 then
        (if q.forward = true then
          parseRotatedLogAux files q fuel (if q.forward = true then rotate - 1 else rotate + 1)
              (collectLoop q.logparserfn
                (pipelineLines q.cursor q.endcursor q.includecursor q.includeendcursor q.forward
                  q.greps q.keyword lim content).reverse lim).2 ++
            (collectLoop q.logparserfn
              (pipelineLines q.cursor q.endcursor q.includecursor q.includeendcursor q.forward
                q.greps q.keyword lim content).reverse lim).1
        else
          (collectLoop q.logparserfn
            (pipelineLines q.cursor q.endcursor q.includecursor q.includeendcursor q.forward
              q.greps q.keyword lim content).reverse lim).1 ++
            parseRotatedLogAux files q fuel (if q.forward = true then rotate - 1 else rotate + 1)
              (collectLoop q.logparserfn
                (pipelineLines q.cursor q.endcursor q.includecursor q.includeendcursor q.forward
                  q.greps q.keyword lim content).reverse lim).2)
      else
        (collectLoop q.logparserfn
          (pipelineLines q.cursor q.endcursor q.includecursor q.includeendcursor q.forward
            q.greps q.keyword lim content).reverse lim).1) := by
  rw [parseRotatedLogAux, if_neg hg, hf]

/-! ### Provenance of returned entries -/

theorem aux_mem {α : Type} {files : Nat → Option (List String)} {q : LogQuery α}
    {fuel : Nat} {rotate : Int} {lim : Option Nat} {e : α}
    (he : e ∈ parseRotatedLogAux files q fuel rotate lim) :
    ∃ (j : Nat) (content : List String) (lim2 : Option Nat) (l : String),
      (j : Int) ≤ (q.maxrotate : Int) ∧
      (if q.forward = true then (j : Int) ≤ rotate else rotate ≤ (j : Int)) ∧
      files j = some content ∧
      l ∈ pipelineLines q.cursor q.endcursor q.includecursor q.includeendcursor q.forward
        q.greps q.keyword lim2 content ∧
      lineEntry q.logparserfn l = some e := by
  induction fuel generalizing rotate lim with
  | zero => simp [parseRotatedLogAux] at he
  | succ fuel ih =>
    by_cases hg : rotate < 0 ∨ rotate > (q.maxrotate : Int)
    · rw [aux_out files q fuel rotate lim hg] at he
      simp at he
    · have hg' := hg
      push_neg at hg'
      cases hf : files rotate.toNat with
      | none =>
        rw [aux_step_missing files q fuel rotate lim hg hf] at he
        by_cases hb : ¬q.forward = true ∧ rotate > 0
        · rw [if_pos hb] at he; simp at he
        · rw [if_neg hb] at he
          obtain ⟨j, content, lim2, l, h1, h2, h3, h4, h5⟩ := ih he
          refine ⟨j, content, lim2, l, h1, ?_, h3, h4, h5⟩
          cases hfw : q.forward with
          | true => rw [hfw] at h2; simp [hfw] at h2 ⊢; omega
          | false => rw [hfw] at h2; simp [hfw] at h2 ⊢; omega
      | some content =>
        rw [aux_step_present files q fuel rotate lim content hg hf] at he
        have hj : ((rotate.toNat : Nat) : Int) = rotate := Int.toNat_of_nonneg hg'.1
        have hthis : ∀ e' : α, e' ∈ (collectLoop q.logparserfn
            (pipelineLines q.cursor q.endcursor q.includecursor q.includeendcursor q.forward
              q.greps q.keyword lim content).reverse lim).1 →
            ∃ (j : Nat) (content' : List String) (lim2 : Option Nat) (l : String),
              (j : Int) ≤ (q.maxrotate : Int) ∧
              (if q.forward = true then (j : Int) ≤ rotate else rotate ≤ (j : Int)) ∧
              files j = some content' ∧
              l ∈ pipelineLines q.cursor q.endcursor q.includecursor q.includeendcursor q.forward
                q.greps q.keyword lim2 content' ∧
              lineEntry q.logparserfn l = some e' := by
          intro e' he'
          obtain ⟨l, hl, hle⟩ := collectLoop_mem he'
          refine ⟨rotate.toNat, content, lim, l, by omega, ?_, hf, List.mem_reverse.mp hl, hle⟩
          rcases Bool.eq_false_or_eq_true q.forward with hfw | hfw <;> simp [hfw] <;> omega
        by_cases hc : (collectLoop q.logparserfn
            (pipelineLines q.cursor q.endcursor q.includecursor q.includeendcursor q.forward
              q.greps q.keyword lim content).reverse lim).2 = none ∨
            0 < ((collectLoop q.logparserfn
              (pipelineLines q.cursor q.endcursor q.includecursor q.includeendcursor q.forward
                q.greps q.keyword lim content).reverse lim).2).getD 0
        · rw [if_pos hc] at he
          by_cases hfw : q.forward = true
          · rw [if_pos hfw] at he
            rcases List.mem_append.mp he with he | he
            · obtain ⟨j, content', lim2, l, h1, h2, h3, h4, h5⟩ := ih he
              refine ⟨j, content', lim2, l, h1, ?_, h3, h4, h5⟩
              simp only [if_pos hfw] at h2 ⊢
              omega
            · exact hthis e he
          · rw [if_neg hfw] at he
            rcases List.mem_append.mp he with he | he
            · exact hthis e he
            · obtain ⟨j, content', lim2, l, h1, h2, h3, h4, h5⟩ := ih he
              refine ⟨j, content', lim2, l, h1, ?_, h3, h4, h5⟩
              simp only [if_neg hfw] at h2 ⊢
              omega
        · rw [if_neg hc] at he
          exact hthis e he

/-! ### The limit bounds the number of returned entries -/

theorem pipelineLines_length_le (cursor endcursor : Option String)
    (ic ie fwd : Bool) (greps : List (String → Bool)) (kw : Option String)
    (n : Nat) (content : List String) :
    (pipelineLines cursor endcursor ic ie fwd greps kw (some n) content).length ≤ n :=
  limitStage_length_le n fwd _

theorem aux_length_le {α : Type} (files : Nat → Option (List String)) (q : LogQuery α) :
    ∀ (fuel : Nat) (rotate : Int) (n : Nat),
      (parseRotatedLogAux files q fuel rotate (some n)).length ≤ n := by
  intro fuel
  induction fuel with
  | zero => intro rotate n; simp [aux_zero]
  | succ fuel ih =>
    intro rotate n
    by_cases hg : rotate < 0 ∨ rotate > (q.maxrotate : Int)
    · simp [aux_out files q fuel rotate _ hg]
    · cases hf : files rotate.toNat with
      | none =>
        rw [aux_step_missing files q fuel rotate (some n) hg hf]
        by_cases hb : ¬q.forward = true ∧ rotate > 0
        · simp [hb]
        · rw [if_neg hb]; exact ih _ n
      | some content =>
        rw [aux_step_present files q fuel rotate (some n) content hg hf]
        set L := (pipelineLines q.cursor q.endcursor q.includecursor q.includeendcursor q.forward
          q.greps q.keyword (some n) content).reverse with hL
        set C := collectLoop q.logparserfn L (some n) with hC
        have hsnd : C.2 = some (n - C.1.length) := collectLoop_snd _ _ _
        have hlen1 : C.1.length ≤ L.length := collectLoop_length_le _ _ _
        have hlen2 : L.length ≤ n := by
          rw [hL, List.length_reverse]
          exact pipelineLines_length_le _ _ _ _ _ _ _ _ _
        by_cases hc : C.2 = none ∨ 0 < C.2.getD 0
        · rw [if_pos hc]
          have hm : (parseRotatedLogAux files q fuel
              (if q.forward = true then rotate - 1 else rotate + 1) C.2).length ≤
              n - C.1.length := by
            rw [hsnd]; exact ih _ _
          by_cases hfw : q.forward = true
          · rw [if_pos hfw]; rw [List.length_append]; omega
          · rw [if_neg hfw]; rw [List.length_append]; omega
        · rw [if_neg hc]; omega

/-! ### A window whose endCursor lies beyond its cursor filters out every line -/

theorem awkKeep_contra {c e : String} {fwd : Bool} (ic ie : Bool) (l : String)
    (he : e ≠ "")
    (h : (fwd = false ∧ strLtb c e = true) ∨ (fwd = true ∧ strLtb e c = true)) :
    awkKeep c (some e) ic ie fwd l = false := by
  rcases h with ⟨hfw, hce⟩ | ⟨hfw, hce⟩ <;> subst hfw
  · rcases hb : awkKeep c (some e) ic ie false l with _ | _
    · rfl
    · exfalso
      rw [show awkKeep c (some e) ic ie false l =
        ((if ic = true then strLeb (awkField1 l) c else strLtb (awkField1 l) c) &&
         (if ie = true then strLeb e (awkField1 l) else strLtb e (awkField1 l))) from by
          simp [awkKeep, he]] at hb
      rw [Bool.and_eq_true] at hb
      have h1 : strLeb (awkField1 l) c = true := by
        by_cases hic : ic = true
        · rw [if_pos hic] at hb; exact hb.1
        · rw [if_neg hic] at hb; exact strLtb_le hb.1
      have h2 : strLeb e (awkField1 l) = true := by
        by_cases hie : ie = true
        · rw [if_pos hie] at hb; exact hb.2
        · rw [if_neg hie] at hb; exact strLtb_le hb.2
      exact strOrder_absurd hce h1 h2
  · rcases hb : awkKeep c (some e) ic ie true l with _ | _
    · rfl
    · exfalso
      rw [show awkKeep c (some e) ic ie true l =
        ((if ic = true then strLeb c (awkField1 l) else strLtb c (awkField1 l)) &&
         (if ie = true then strLeb (awkField1 l) e else strLtb (awkField1 l) e)) from by
          simp [awkKeep, he]] at hb
      rw [Bool.and_eq_true] at hb
      have h1 : strLeb c (awkField1 l) = true := by
        by_cases hic : ic = true
        · rw [if_pos hic] at hb; exact hb.1
        · rw [if_neg hic] at hb; exact strLtb_le hb.1
      have h2 : strLeb (awkField1 l) e = true := by
        by_cases hie : ie = true
        · rw [if_pos hie] at hb; exact hb.2
        · rw [if_neg hie] at hb; exact strLtb_le hb.2
      exact strOrder_absurd hce h2 h1

theorem grepsStage_nil (greps : List (String → Bool)) : grepsStage greps [] = [] := by
  induction greps with
  | nil => rfl
  | cons g gs ih => simpa [grepsStage, List.foldl_cons] using ih

theorem pipelineLines_contra_nil {c e : String} {fwd : Bool}
    (ic ie : Bool) (greps : List (String → Bool)) (kw : Option String)
    (lim : Option Nat) (content : List String)
    (hc : c ≠ "") (he : e ≠ "")
    (h : (fwd = false ∧ strLtb c e = true) ∨ (fwd = true ∧ strLtb e c = true)) :
    pipelineLines (some c) (some e) ic ie fwd greps kw lim content = [] := by
  have hcur : cursorStage (some c) (some e) ic ie fwd (content.map stripNulls) = [] := by
    unfold cursorStage
    rw [if_pos (by simpa [truthy] using hc)]
    rw [List.filter_eq_nil_iff]
    intro l _
    simp [Option.getD, awkKeep_contra ic ie l he h]
  unfold pipelineLines
  rw [hcur, grepsStage_nil]
  have hkw : keywordStage kw [] = [] := by
    unfold keywordStage; split <;> rfl
  rw [hkw]
  unfold limitStage
  cases lim with
  | none => rfl
  | some n => split <;> simp

theorem aux_contra_empty {α : Type} (files : Nat → Option (List String)) (q : LogQuery α)
    {c e : String}
    (hcu : q.cursor = some c) (hec : q.endcursor = some e) (hc : c ≠ "") (he : e ≠ "")
    (h : (q.forward = false ∧ strLtb c e = true) ∨ (q.forward = true ∧ strLtb e c = true)) :
    ∀ (fuel : Nat) (rotate : Int) (lim : Option Nat),
      parseRotatedLogAux files q fuel rotate lim = [] := by
  intro fuel
  induction fuel with
  | zero => intro rotate lim; rfl
  | succ fuel ih =>
    intro rotate lim
    by_cases hg : rotate < 0 ∨ rotate > (q.maxrotate : Int)
    · exact aux_out files q fuel rotate lim hg
    · cases hf : files rotate.toNat with
      | none =>
        rw [aux_step_missing files q fuel rotate lim hg hf]
        by_cases hb : ¬q.forward = true ∧ rotate > 0
        · rw [if_pos hb]
        · rw [if_neg hb]; exact ih _ _
      | some content =>
        rw [aux_step_present files q fuel rotate lim content hg hf]
        have hpl : pipelineLines q.cursor q.endcursor q.includecursor q.includeendcursor
            q.forward q.greps q.keyword lim content = [] := by
          rw [hcu, hec]
          exact pipelineLines_contra_nil _ _ _ _ _ _ hc he (by
            rcases h with ⟨h1, h2⟩ | ⟨h1, h2⟩
            · exact Or.inl ⟨h1, h2⟩
            · exact Or.inr ⟨h1, h2⟩)
        rw [hpl]
        simp only [List.reverse_nil]
        rw [show collectLoop q.logparserfn [] lim = ([], lim) from rfl]
        by_cases hcnd : (([] : List α), lim).2 = none ∨ 0 < (([] : List α), lim).2.getD 0
        · rw [if_pos hcnd]
          rw [ih _ _]
          by_cases hfw : q.forward = true
          · rw [if_pos hfw]; rfl
          · rw [if_neg hfw]; rfl
        · rw [if_neg hcnd]

theorem prefix_append_left {α : Type} (l : List α) {a b : List α} (h : a <+: b) :
    l ++ a <+: l ++ b := by
  obtain ⟨t, ht⟩ := h
  exact ⟨t, by rw [← ht, List.append_assoc]⟩

theorem collect_backward_limited {α : Type} (p : String → String → Option α)
    (n : Nat) (pre : List String)
    (htot : ∀ l ∈ pre, lineEntry p l ≠ none) :
    collectLoop p (limitStage (some n) false pre).reverse (some n) =
      ((pre.reverse.filterMap (lineEntry p)).take n,
       some (n - (pre.reverse.filterMap (lineEntry p)).length)) := by
  have htot' : ∀ l ∈ pre.reverse, lineEntry p l ≠ none :=
    fun l hl => htot l (List.mem_reverse.mp hl)
  have hrev : (limitStage (some n) false pre).reverse = pre.reverse.take n := by
    show (pre.drop (pre.length - n)).reverse = pre.reverse.take n
    rw [List.reverse_drop]
    rw [show pre.length - (pre.length - n) = min n pre.reverse.length by
      rw [List.length_reverse]; omega]
    exact take_min_length _ _
  rw [hrev]
  have hlen : (pre.reverse.take n).length ≤ n := by
    rw [List.length_take]; omega
  have htot2 : ∀ l ∈ pre.reverse.take n, lineEntry p l ≠ none :=
    fun l hl => htot' l (List.mem_of_mem_take hl)
  rw [collectLoop_total p _ n htot2 hlen]
  rw [filterMap_take_of_total _ _ _ htot']
  congr 1
  rw [length_filterMap_of_total _ _ htot']
  rw [List.length_take, List.length_reverse]
  congr 1
  omega

theorem aux_prefix_backward {α : Type} (files : Nat → Option (List String)) (q : LogQuery α)
    (hback : q.forward = false) (hall : allParse q.logparserfn files) :
    ∀ (fuel : Nat) (rotate : Int) (n : Nat),
      parseRotatedLogAux files q fuel rotate (some n) <+:
        parseRotatedLogAux files q fuel rotate none := by
  intro fuel
  induction fuel with
  | zero => intro rotate n; exact List.prefix_rfl
  | succ fuel ih =>
    intro rotate n
    by_cases hg : rotate < 0 ∨ rotate > (q.maxrotate : Int)
    · rw [aux_out files q fuel rotate _ hg, aux_out files q fuel rotate _ hg]
    · cases hf : files rotate.toNat with
      | none =>
        rw [aux_step_missing files q fuel rotate (some n) hg hf,
          aux_step_missing files q fuel rotate none hg hf]
        by_cases hb : ¬q.forward = true ∧ rotate > 0
        · rw [if_pos hb, if_pos hb]
        · rw [if_neg hb, if_neg hb]; exact ih _ n
      | some content =>
        rw [aux_step_present files q fuel rotate (some n) content hg hf,
          aux_step_present files q fuel rotate none content hg hf]
        rw [hback]
        simp only [Bool.false_eq_true, if_false]
        set pre := keywordStage q.keyword (grepsStage q.greps
          (cursorStage q.cursor q.endcursor q.includecursor q.includeendcursor false
            (content.map stripNulls))) with hpre
        have htot : ∀ l ∈ pre, lineEntry q.logparserfn l ≠ none := by
          intro l hl
          have hsub : l ∈ content.map stripNulls :=
            (((keywordStage_sublist _ _).trans (grepsStage_sublist _ _)).trans
              (cursorStage_sublist _ _ _ _ _ _)).subset hl
          obtain ⟨l0, hl0, rfl⟩ := List.mem_map.mp hsub
          exact hall rotate.toNat content hf l0 hl0
        have hsome : pipelineLines q.cursor q.endcursor q.includecursor q.includeendcursor false
            q.greps q.keyword (some n) content = limitStage (some n) false pre := rfl
        have hnone : pipelineLines q.cursor q.endcursor q.includecursor q.includeendcursor false
            q.greps q.keyword none content = pre := rfl
        rw [hsome, hnone, collectLoop_none q.logparserfn pre.reverse,
          collect_backward_limited q.logparserfn n pre htot]
        set E := pre.reverse.filterMap (lineEntry q.logparserfn) with hE
        rw [if_pos (Or.inl rfl)]
        by_cases hrem : 0 < n - E.length
        · rw [if_pos (Or.inr (by simpa using hrem))]
          rw [List.take_of_length_le (by omega)]
          exact prefix_append_left E (ih _ _)
        · rw [if_neg (by simpa using hrem)]
          exact (List.take_prefix n E).trans (List.prefix_append E _)

theorem concatUp_snoc {α : Type} (E : Nat → List α) :
    ∀ (k r : Nat), concatUp E r (k + 1) = concatUp E r k ++ E (r + k) := by
  intro k
  induction k with
  | zero => intro r; simp [concatUp]
  | succ k ih =>
    intro r
    show E r ++ concatUp E (r + 1) (k + 1) = (E r ++ concatUp E (r + 1) k) ++ E (r + (k + 1))
    rw [ih (r + 1), List.append_assoc]
    rw [show r + 1 + k = r + (k + 1) from by omega]

theorem aux_step_present_none {α : Type} (files : Nat → Option (List String)) (q : LogQuery α)
    (fuel : Nat) (rotate : Int) (content : List String)
    (hg : ¬(rotate < 0 ∨ rotate > (q.maxrotate : Int)))
    (hf : files rotate.toNat = some content) :
    parseRotatedLogAux files q (fuel + 1) rotate none =
      (if q.forward = true then
        parseRotatedLogAux files q fuel (if q.forward = true then rotate - 1 else rotate + 1)
            none ++
          (pipelineLines q.cursor q.endcursor q.includecursor q.includeendcursor q.forward
            q.greps q.keyword none content).reverse.filterMap (lineEntry q.logparserfn)
      else
        (pipelineLines q.cursor q.endcursor q.includecursor q.includeendcursor q.forward
          q.greps q.keyword none content).reverse.filterMap (lineEntry q.logparserfn) ++
          parseRotatedLogAux files q fuel (if q.forward = true then rotate - 1 else rotate + 1)
            none) := by
  rw [aux_step_present files q fuel rotate none content hg hf, collectLoop_none]
  simp

theorem aux_closed_backward {α : Type} (files : Nat → Option (List String)) (q : LogQuery α)
    (hback : q.forward = false) (hpres : ∀ i, i ≤ q.maxrotate → (files i).isSome) :
    ∀ (fuel r : Nat), r ≤ q.maxrotate + 1 → q.maxrotate + 2 - r ≤ fuel →
      parseRotatedLogAux files q fuel (r : Int) none =
        concatUp (fileEntries files q) r (q.maxrotate + 1 - r) := by
  intro fuel
  induction fuel with
  | zero => intro r h1 h2; omega
  | succ fuel ih =>
    intro r h1 h2
    by_cases hr : r = q.maxrotate + 1
    · rw [aux_out files q fuel _ none (by omega)]
      rw [show q.maxrotate + 1 - r = 0 from by omega]
      rfl
    · have hrange : ¬((r : Int) < 0 ∨ (r : Int) > (q.maxrotate : Int)) := by omega
      have hrm : r ≤ q.maxrotate := by omega
      obtain ⟨content, hc⟩ := Option.isSome_iff_exists.mp (hpres r hrm)
      have hc' : files ((r : Int)).toNat = some content := by simpa using hc
      rw [aux_step_present_none files q fuel (r : Int) content hrange hc']
      simp only [hback, Bool.false_eq_true, if_false]
      rw [show ((r : Int) + 1) = ((r + 1 : Nat) : Int) from by push_cast; ring]
      rw [ih (r + 1) (by omega) (by omega)]
      rw [show q.maxrotate + 1 - (r + 1) = q.maxrotate - r from by omega]
      rw [show q.maxrotate + 1 - r = (q.maxrotate - r) + 1 from by omega]
      show _ ++ _ = fileEntries files q r ++ concatUp (fileEntries files q) (r + 1) _
      congr 1
      simp [fileEntries, hc, collectLoop_none, hback]

theorem aux_closed_forward {α : Type} (files : Nat → Option (List String)) (q : LogQuery α)
    (hfwd : q.forward = true) (hpres : ∀ i, i ≤ q.maxrotate → (files i).isSome) :
    ∀ (fuel : Nat) (rotate : Int), -1 ≤ rotate → rotate ≤ (q.maxrotate : Int) →
      (rotate + 2).toNat ≤ fuel →
      parseRotatedLogAux files q fuel rotate none =
        concatUp (fileEntries files q) 0 (rotate + 1).toNat := by
  intro fuel
  induction fuel with
  | zero => intro rotate h1 h2 h3; omega
  | succ fuel ih =>
    intro rotate h1 h2 h3
    by_cases hr : rotate = -1
    · rw [aux_out files q fuel rotate none (by omega)]
      rw [show (rotate + 1).toNat = 0 from by omega]
      rfl
    · have hrange : ¬(rotate < 0 ∨ rotate > (q.maxrotate : Int)) := by omega
      have hrm : rotate.toNat ≤ q.maxrotate := by omega
      obtain ⟨content, hc⟩ := Option.isSome_iff_exists.mp (hpres rotate.toNat hrm)
      rw [aux_step_present_none files q fuel rotate content hrange hc]
      simp only [if_pos hfwd]
      rw [ih (rotate - 1) (by omega) (by omega) (by omega)]
      rw [show (rotate + 1).toNat = (rotate - 1 + 1).toNat + 1 from by omega]
      rw [concatUp_snoc]
      congr 1
      rw [show 0 + (rotate - 1 + 1).toNat = rotate.toNat from by omega]
      simp [fileEntries, hc, collectLoop_none]

/-! ### Swapping direction and cursors keeps the same per-line filter -/

theorem awkKeep_swap {c e : String} (hc : c ≠ "") (he : e ≠ "") (ic ie : Bool) (l : String) :
    awkKeep c (some e) ic ie true l = awkKeep e (some c) ie ic false l := by
  cases ic <;> cases ie <;> simp [awkKeep, hc, he, Bool.and_comm]

theorem cursorStage_swap {c e : String} (hc : c ≠ "") (he : e ≠ "") (ic ie : Bool)
    (ls : List String) :
    cursorStage (some c) (some e) ic ie true ls = cursorStage (some e) (some c) ie ic false ls := by
  unfold cursorStage
  rw [if_pos (by simpa [truthy] using hc), if_pos (by simpa [truthy] using he)]
  exact List.filter_congr (fun l _ => awkKeep_swap hc he ic ie l)

theorem pipelineLines_swap {c e : String} (hc : c ≠ "") (he : e ≠ "") (ic ie : Bool)
    (gs : List (String → Bool)) (kw : Option String) (content : List String) :
    pipelineLines (some c) (some e) ic ie true gs kw none content =
      pipelineLines (some e) (some c) ie ic false gs kw none content := by
  show keywordStage kw (grepsStage gs (cursorStage (some c) (some e) ic ie true
      (content.map stripNulls))) =
    keywordStage kw (grepsStage gs (cursorStage (some e) (some c) ie ic false
      (content.map stripNulls)))
  rw [cursorStage_swap hc he ic ie]

/-! ### Global ordering of returned entries -/

theorem aux_pairwise {files : Nat → Option (List String)} {q : LogQuery (String × String)}
    (hwf : wfFiles files)
    (hsort : ∀ i content, files i = some content →
      content.Pairwise (fun a b => strLeb (awkField1 a) (awkField1 b) = true))
    (hcross : ∀ i j ci cj, i < j → files i = some ci → files j = some cj →
      ∀ a ∈ ci, ∀ b ∈ cj, strLeb (awkField1 b) (awkField1 a) = true)
    (hp : q.logparserfn = defaultLogParserFn) :
    ∀ (fuel : Nat) (rotate : Int) (lim : Option Nat),
      (parseRotatedLogAux files q fuel rotate lim).Pairwise
        (fun p p' => strLeb p'.1 p.1 = true) := by
  intro fuel
  induction fuel with
  | zero => intro rotate lim; simp [aux_zero]
  | succ fuel ih =>
    intro rotate lim
    by_cases hg : rotate < 0 ∨ rotate > (q.maxrotate : Int)
    · simp [aux_out files q fuel rotate lim hg]
    · have hg' := hg
      push_neg at hg'
      cases hf : files rotate.toNat with
      | none =>
        rw [aux_step_missing files q fuel rotate lim hg hf]
        by_cases hb : ¬q.forward = true ∧ rotate > 0
        · simp [hb]
        · rw [if_neg hb]; exact ih _ _
      | some content =>
        rw [aux_step_present files q fuel rotate lim content hg hf]
        have hwfc : ∀ l ∈ content, wfLine l := hwf rotate.toNat content hf
        set P := pipelineLines q.cursor q.endcursor q.includecursor q.includeendcursor q.forward
          q.greps q.keyword lim content with hP
        have hsubpipe : P.Sublist content := by
          have h := pipelineLines_sublist q.cursor q.endcursor q.includecursor q.includeendcursor
            q.forward q.greps q.keyword lim content
          rwa [map_stripNulls_of_wf hwfc] at h
        have hPmem : ∀ l ∈ P, l ∈ content := fun l hl => hsubpipe.subset hl
        have htok : ∀ l ∈ P.reverse, ∀ x : String × String,
            lineEntry q.logparserfn l = some x → x.1 = awkField1 l := by
          intro l hl x hx
          rw [hp] at hx
          exact lineEntry_default_fst (hwfc l (hPmem l (List.mem_reverse.mp hl))) hx
        have hentries : (collectLoop q.logparserfn P.reverse lim).1.Pairwise
            (fun p p' : String × String => strLeb p'.1 p.1 = true) := by
          apply collectLoop_pairwise
          have hrev : P.reverse.Pairwise
              (fun a b => strLeb (awkField1 b) (awkField1 a) = true) :=
            List.pairwise_reverse.mpr (List.Pairwise.sublist hsubpipe (hsort _ _ hf))
          refine List.Pairwise.imp_of_mem ?_ hrev
          intro a b ha hb hab x y hx hy
          rw [htok a ha x hx, htok b hb y hy]
          exact hab
        have hmemtok : ∀ x : String × String, x ∈ (collectLoop q.logparserfn P.reverse lim).1 →
            ∃ l ∈ content, x.1 = awkField1 l := by
          intro x hx
          obtain ⟨l, hl, hle⟩ := collectLoop_mem hx
          exact ⟨l, hPmem l (List.mem_reverse.mp hl), htok l hl x hle⟩
        by_cases hc : (collectLoop q.logparserfn P.reverse lim).2 = none ∨
            0 < ((collectLoop q.logparserfn P.reverse lim).2).getD 0
        · rw [if_pos hc]
          by_cases hfw : q.forward = true
          · rw [if_pos hfw]
            rw [List.pairwise_append]
            refine ⟨ih _ _, hentries, ?_⟩
            intro b hb a ha
            obtain ⟨j, content', lim2, l', hj1, hj2, hj3, hj4, hj5⟩ := aux_mem hb
            simp only [if_pos hfw] at hj2
            have hjr : j < rotate.toNat := by omega
            have hwfc' : ∀ l ∈ content', wfLine l := hwf j content' hj3
            have hbtok : b.1 = awkField1 l' := by
              rw [hp] at hj5
              exact lineEntry_default_fst (hwfc' l' (pipelineLines_subset_of_wf hwfc' hj4)) hj5
            obtain ⟨la, hla, hatok⟩ := hmemtok a ha
            rw [hatok, hbtok]
            exact hcross j rotate.toNat content' content hjr hj3 hf l'
              (pipelineLines_subset_of_wf hwfc' hj4) la hla
          · rw [if_neg hfw]
            rw [List.pairwise_append]
            refine ⟨hentries, ih _ _, ?_⟩
            intro a ha b hb
            obtain ⟨j, content', lim2, l', hj1, hj2, hj3, hj4, hj5⟩ := aux_mem hb
            simp only [if_neg hfw] at hj2
            have hjr : rotate.toNat < j := by omega
            have hwfc' : ∀ l ∈ content', wfLine l := hwf j content' hj3
            have hbtok : b.1 = awkField1 l' := by
              rw [hp] at hj5
              exact lineEntry_default_fst (hwfc' l' (pipelineLines_subset_of_wf hwfc' hj4)) hj5
            obtain ⟨la, hla, hatok⟩ := hmemtok a ha
            rw [hatok, hbtok]
            exact hcross rotate.toNat j content content' hjr hf hj3 la hla l'
              (pipelineLines_subset_of_wf hwfc' hj4)
        · rw [if_neg hc]
          exact hentries

theorem probes_step_missing {α : Type} (files : Nat → Option (List String)) (q : LogQuery α)
    (fuel : Nat) (rotate : Int) (lim : Option Nat)
    (hg : ¬(rotate < 0 ∨ rotate > (q.maxrotate : Int)))
    (hf : files rotate.toNat = none) :
    parseRotatedLogProbesAux files q (fuel + 1) rotate lim =
      if ¬q.forward = true ∧ rotate > 0 then [rotate]
      else rotate :: parseRotatedLogProbesAux files q fuel
        (if q.forward = true then rotate - 1 else rotate + 1) lim := by
  rw [parseRotatedLogProbesAux, if_neg hg, hf]

/-! ### Claim theorems -/

/-- Claim C4: for a backward query, a missing rotation file at index
greater than 0 stops the walk with no entries and no further probes; for a
forward query, a missing file merely advances the index by one; in the
concrete scenario with live, .1 and .3 present but .2 missing and
maxRotate = 5, a backward query returns exactly the live and .1 entries
(never .3) and probes exactly indices 0, 1, 2. -/

theorem claim4_missing_rotation :
    (∀ {α : Type} (files : Nat → Option (List String)) (q : LogQuery α)
      (fuel : Nat) (rotate : Int) (lim : Option Nat),
      q.forward = false → 0 < rotate → rotate ≤ (q.maxrotate : Int) →
      files rotate.toNat = none →
      parseRotatedLogAux files q (fuel + 1) rotate lim = [] ∧
      parseRotatedLogProbesAux files q (fuel + 1) rotate lim = [rotate]) ∧
    (∀ {α : Type} (files : Nat → Option (List String)) (q : LogQuery α)
      (fuel : Nat) (rotate : Int) (lim : Option Nat),
      q.forward = true → 0 ≤ rotate → rotate ≤ (q.maxrotate : Int) →
      files rotate.toNat = none →
      parseRotatedLogAux files q (fuel + 1) rotate lim =
        parseRotatedLogAux files q fuel (rotate - 1) lim) ∧
    (ParseRotatedLog filesC4 qC4 =
      [("t6", "l1"), ("t5", "l0"), ("t4", "r2"), ("t3", "r1")] ∧
     ParseRotatedLogProbes filesC4 qC4 = [0, 1, 2]) := by
  refine ⟨?_, ?_, by decide⟩
  · intro α files q fuel rotate lim hb hr hmax hf
    have hg : ¬(rotate < 0 ∨ rotate > (q.maxrotate : Int)) := by omega
    constructor
    · rw [aux_step_missing files q fuel rotate lim hg hf, if_pos ⟨by simp [hb], hr⟩]
    · rw [probes_step_missing files q fuel rotate lim hg hf, if_pos ⟨by simp [hb], hr⟩]
  · intro α files q fuel rotate lim hfw h0 hmax hf
    have hg : ¬(rotate < 0 ∨ rotate > (q.maxrotate : Int)) := by omega
    rw [aux_step_missing files q fuel rotate lim hg hf,
      if_neg (by simp [hfw]), if_pos hfw]

/-- Witness for C4: concrete instances of the two universally quantified
parts, with every hypothesis discharged on concrete input. -/

theorem claim4_witness :
    (parseRotatedLogAux (fun _ => none) qC4 3 1 none = [] ∧
     parseRotatedLogProbesAux (fun _ => none) qC4 3 1 none = [1]) ∧
    parseRotatedLogAux (fun _ => none) qC4fwd 3 1 none =
      parseRotatedLogAux (fun _ => none) qC4fwd 2 0 none := by
  constructor
  · exact claim4_missing_rotation.1 (fun _ => none) qC4 2 1 none rfl (by decide) (by decide) rfl
  · exact claim4_missing_rotation.2.1 (fun _ => none) qC4fwd 2 1 none rfl (by decide)
      (by decide) rfl

/-- Claim C6: when the cursor bound is present (non-empty), a line passes
the range filter stage iff its token (the text before the first separator)
satisfies the direction-dependent comparator table of the specification. -/

theorem claim6_comparator_table {c : String} (hc : c ≠ "") (e : Option String)
    (ic ie fwd : Bool) (l : String) (lines : List String) :
    l ∈ cursorStage (some c) e ic ie fwd lines ↔
      l ∈ lines ∧ specKeepClaim fwd ic ie c e (awkField1 l) := by
  unfold cursorStage
  rw [if_pos (by simpa [truthy] using hc)]
  rw [List.mem_filter]
  have h := awkKeep_iff_specKeep c e ic ie fwd l
  constructor
  · rintro ⟨h1, h2⟩; exact ⟨h1, h.mp h2⟩
  · rintro ⟨h1, h2⟩; exact ⟨h1, h.mpr h2⟩

/-- Witness for C6 at a concrete backward query with an exclusive cursor. -/

theorem claim6_witness :
    "a,x" ∈ cursorStage (some "b") none false false false ["a,x", "c,y"] ↔
      "a,x" ∈ ["a,x", "c,y"] ∧ specKeepClaim false false false "b" none (awkField1 "a,x") :=
  claim6_comparator_table (by decide) none false false false "a,x" ["a,x", "c,y"]

/-- Claim C7: malformed lines are dropped locally and the query continues
and succeeds: over a single live file an unlimited default query returns
exactly the entries of the parseable lines (in reverse line order), and the
concrete ten-line log with one separator-less line yields exactly nine
entries. -/

theorem claim7_malformed_tolerance :
    (∀ {α : Type} (content : List String) (p : String → String → Option α),
      ParseRotatedLog (singleLiveFile content) { logparserfn := p } =
        (content.map stripNulls).reverse.filterMap (lineEntry p)) ∧
    (ParseRotatedLog (singleLiveFile
        ["t1,a", "t2,b", "t3,c", "t4,d", "t5,e", "badline", "t6,f", "t7,g", "t8,h", "t9,i"])
      { logparserfn := defaultLogParserFn }).length = 9 := by
  constructor
  · intro α content p
    show parseRotatedLogAux (singleLiveFile content) { logparserfn := p } 11 0 none = _
    rw [aux_step_present_none (singleLiveFile content) { logparserfn := p } 10 0 content
      (show ¬((0 : Int) < 0 ∨ (0 : Int) > ((9 : Nat) : Int)) by omega)
      (show singleLiveFile content ((0 : Int)).toNat = some content from rfl)]
    rw [if_neg (show ¬(false = true) by decide)]
    rw [if_neg (show ¬(false = true) by decide)]
    rw [show (10 : Nat) = 9 + 1 from rfl]
    rw [aux_step_missing (singleLiveFile content) { logparserfn := p } 9 (0 + 1) none
      (show ¬((0 : Int) + 1 < 0 ∨ (0 : Int) + 1 > ((9 : Nat) : Int)) by omega)
      (show singleLiveFile content ((0 : Int) + 1).toNat = none from rfl)]
    rw [if_pos ⟨show ¬(false = true) by decide, show (0 : Int) + 1 > 0 by omega⟩]
    rw [List.append_nil]
    rfl
  · decide

/-- Claim C8 counterexample: a backward query whose endCursor ("c") lies
beyond its cursor ("b") is not rejected before I/O: the engine still probes
the live file (probe list `[0]` is non-empty) and returns an ordinary empty
result rather than failing. -/

theorem claim8_counterexample :
    strLtb "b" "c" = true ∧
    ParseRotatedLogProbes (singleLiveFile ["a,x"])
      { cursor := some "b", endcursor := some "c", logparserfn := defaultLogParserFn } = [0, 1] ∧
    ParseRotatedLog (singleLiveFile ["a,x"])
      { cursor := some "b", endcursor := some "c", logparserfn := defaultLogParserFn } = [] := by
  decide

/-- Claim C8 amended: the engine performs no configuration validation and
has no failure channel; a query whose endCursor lies strictly beyond its
cursor for the given direction proceeds (probing and reading files) and
returns the empty list, because the conjunction of the two awk range
conditions is unsatisfiable. -/

theorem claim8_amended {α : Type} (files : Nat → Option (List String)) (q : LogQuery α)
    {c e : String}
    (hcu : q.cursor = some c) (hec : q.endcursor = some e) (hc : c ≠ "") (he : e ≠ "")
    (h : (q.forward = false ∧ strLtb c e = true) ∨ (q.forward = true ∧ strLtb e c = true)) :
    ParseRotatedLog files q = [] := by
  unfold ParseRotatedLog
  exact aux_contra_empty files q hcu hec hc he h _ _ _

/-- Witness for the amended C8 at a concrete inconsistent backward query. -/

theorem claim8_witness :
    ParseRotatedLog (singleLiveFile ["a,x"])
      { cursor := some "b", endcursor := some "c", logparserfn := defaultLogParserFn } = [] :=
  claim8_amended (singleLiveFile ["a,x"])
    { cursor := some "b", endcursor := some "c", logparserfn := defaultLogParserFn }
    rfl rfl (by decide) (by decide) (Or.inl ⟨rfl, by decide⟩)

/-- Claim C9: with no parser supplied (the default parser), the query
succeeds and every returned entry is exactly the stripped split of the
line it came from: there is a line `l0` of a present rotation file whose
NUL-stripped form survived the pipeline stages, and the entry is the pair
of the stripped text before that line's first comma and the stripped text
after it. -/

theorem claim9_default_parsing {files : Nat → Option (List String)}
    {q : LogQuery (String × String)}
    (hp : q.logparserfn = defaultLogParserFn) :
    ∀ p ∈ ParseRotatedLog files q,
      ∃ (j : Nat) (content : List String) (lim2 : Option Nat) (l0 t r : String),
        files j = some content ∧
        l0 ∈ content ∧
        stripNulls l0 ∈ pipelineLines q.cursor q.endcursor q.includecursor q.includeendcursor
          q.forward q.greps q.keyword lim2 content ∧
        pyStrip (stripNulls l0) ≠ "" ∧
        splitFirstComma (pyStrip (stripNulls l0)) = some (t, r) ∧
        p = (pyStrip t, pyStrip r) := by
  intro p hmem
  obtain ⟨j, content, lim2, l, h1, h2, h3, h4, h5⟩ := aux_mem hmem
  obtain ⟨l0, hl0, hmap⟩ := List.mem_map.mp
    ((pipelineLines_sublist q.cursor q.endcursor q.includecursor q.includeendcursor q.forward
      q.greps q.keyword lim2 content).subset h4)
  rw [hp] at h5
  unfold lineEntry at h5
  by_cases hs : pyStrip l = ""
  · rw [if_pos hs] at h5; simp at h5
  · rw [if_neg hs] at h5
    unfold parseEntry at h5
    cases hsp : splitFirstComma (pyStrip l) with
    | none => rw [hsp] at h5; simp at h5
    | some tr =>
      obtain ⟨t, r⟩ := tr
      rw [hsp] at h5
      refine ⟨j, content, lim2, l0, t, r, h3, hl0, ?_, ?_, ?_, ?_⟩
      · rw [hmap]; exact h4
      · rw [hmap]; exact hs
      · rw [hmap]; exact hsp
      · simpa [defaultLogParserFn] using h5.symm

/-- Witness for C9 at a concrete entry with surrounding whitespace. -/

theorem claim9_witness :
    ∃ (j : Nat) (content : List String) (lim2 : Option Nat) (l0 t r : String),
      singleLiveFile [" a , x "] j = some content ∧
      l0 ∈ content ∧
      stripNulls l0 ∈ pipelineLines none none false false false [] none lim2 content ∧
      pyStrip (stripNulls l0) ≠ "" ∧
      splitFirstComma (pyStrip (stripNulls l0)) = some (t, r) ∧
      (("a", "x") : String × String) = (pyStrip t, pyStrip r) :=
  @claim9_default_parsing (singleLiveFile [" a , x "]) { logparserfn := defaultLogParserFn }
    rfl ("a", "x") (by decide)

/-- Claim C10: a line for which the caller-supplied parser returns `None`
is silently dropped and does not count toward the limit: the remaining
limit always equals the initial limit minus the number of appended
entries, and in the concrete query with limit 2 the rejected line `b,y`
leaves enough limit for the older rotation's entry to be returned. -/

theorem claim10_parser_none_limit :
    (∀ {α : Type} (p : String → String → Option α) (ls : List String) (n : Nat),
      (collectLoop p ls (some n)).2 =
        some (n - (collectLoop p ls (some n)).1.length)) ∧
    ParseRotatedLog filesC10 qC10 = [("c", "z"), ("p", "q")] := by
  refine ⟨?_, by decide⟩
  intro α p ls n
  exact collectLoop_snd p ls n

/-- Claim C1 counterexample: with cursor absent and endCursor present
(backward, inclusive), the whole range filter is skipped, so the entry with
token `a` is returned even though the bound `endCursor = "b" ≤ token`
fails. -/

theorem claim1_counterexample :
    ParseRotatedLog (singleLiveFile ["a,x"])
      { endcursor := some "b", includeendcursor := true,
        logparserfn := defaultLogParserFn } = [("a", "x")] ∧
    strLeb "b" "a" = false := by
  decide

/-- Claim C1 amended: the QueryWindow bounds are enforced only when the
cursor is present and non-empty; in that case, over well-formed lines and
the default parser, every returned entry's token satisfies both sides of
the comparator table (an absent or empty cursor skips the filter stage
entirely, endCursor included). -/

theorem claim1_amended {files : Nat → Option (List String)} {q : LogQuery (String × String)}
    {c : String}
    (hwf : wfFiles files) (hp : q.logparserfn = defaultLogParserFn)
    (hc : q.cursor = some c) (hc' : c ≠ "") :
    ∀ p ∈ ParseRotatedLog files q,
      specKeepClaim q.forward q.includecursor q.includeendcursor c q.endcursor p.1 := by
  intro p hpm
  obtain ⟨j, content, lim2, l, h1, h2, h3, h4, h5⟩ := aux_mem hpm
  have hwfc := hwf j content h3
  have htr : truthy q.cursor = true := by rw [hc]; simpa [truthy] using hc'
  have hk := pipelineLines_awkKeep htr h4
  have htokp : p.1 = awkField1 l := by
    rw [hp] at h5
    exact lineEntry_default_fst (hwfc l (pipelineLines_subset_of_wf hwfc h4)) h5
  rw [htokp]
  have hs := (awkKeep_iff_specKeep (q.cursor.getD "") q.endcursor q.includecursor
    q.includeendcursor q.forward l).mp hk
  rw [hc] at hs
  simpa using hs

/-- Witness for the amended C1 at a concrete bounded backward query. -/

theorem claim1_witness :
    specKeepClaim false false false "c" none (("b", "x") : String × String).1 := by
  have hw : wfFiles (singleLiveFile ["b,x"]) := by
    intro i content hic l hl
    cases i with
    | zero =>
      simp [singleLiveFile] at hic
      subst hic
      simp at hl
      subst hl
      exact ⟨by decide, by decide, by decide⟩
    | succ n => simp [singleLiveFile] at hic
  exact @claim1_amended (singleLiveFile ["b,x"])
    { cursor := some "c", logparserfn := defaultLogParserFn } "c"
    hw rfl rfl (by decide) ("b", "x") (by decide)

/-- Claim C2 counterexample: a forward query is not ordered
oldest-cursor-first: over a single live file holding tokens `a` then `b`,
the forward query returns the `b` entry first. -/

theorem claim2_counterexample :
    ParseRotatedLog (singleLiveFile ["a,x", "b,y"])
      { forward := true, logparserfn := defaultLogParserFn } = [("b", "y"), ("a", "x")] ∧
    strLtb "a" "b" = true := by
  decide

/-- Claim C2 amended: over well-formed, per-file chronologically ascending
files whose rotation order is consistent (larger rotation index holds older
tokens), EVERY query — backward or forward, limited or not — returns its
entries latest-cursor-first; the forward direction does not reverse this,
because each file's lines are collected in reversed physical order and the
forward merge places newer files' blocks first. -/

theorem claim2_amended {files : Nat → Option (List String)} {q : LogQuery (String × String)}
    (hwf : wfFiles files)
    (hsort : ∀ i content, files i = some content →
      content.Pairwise (fun a b => strLeb (awkField1 a) (awkField1 b) = true))
    (hcross : ∀ i j ci cj, i < j → files i = some ci → files j = some cj →
      ∀ a ∈ ci, ∀ b ∈ cj, strLeb (awkField1 b) (awkField1 a) = true)
    (hp : q.logparserfn = defaultLogParserFn) :
    (ParseRotatedLog files q).Pairwise (fun p p' => strLeb p'.1 p.1 = true) := by
  unfold ParseRotatedLog
  exact aux_pairwise hwf hsort hcross hp _ _ _

/-- Witness for the amended C2 on a concrete forward query. -/

theorem claim2_witness :
    (ParseRotatedLog (singleLiveFile ["a,x", "b,y"])
      { forward := true, logparserfn := defaultLogParserFn }).Pairwise
      (fun p p' => strLeb p'.1 p.1 = true) := by
  have hw : wfFiles (singleLiveFile ["a,x", "b,y"]) := by
    intro i content hic l hl
    cases i with
    | zero =>
      simp [singleLiveFile] at hic
      subst hic
      simp at hl
      rcases hl with rfl | rfl <;> exact ⟨by decide, by decide, by decide⟩
    | succ n => simp [singleLiveFile] at hic
  have hs : ∀ i content, singleLiveFile ["a,x", "b,y"] i = some content →
      content.Pairwise (fun a b => strLeb (awkField1 a) (awkField1 b) = true) := by
    intro i content hic
    cases i with
    | zero =>
      simp [singleLiveFile] at hic
      subst hic
      decide
    | succ n => simp [singleLiveFile] at hic
  have hx : ∀ i j ci cj, i < j → singleLiveFile ["a,x", "b,y"] i = some ci →
      singleLiveFile ["a,x", "b,y"] j = some cj →
      ∀ a ∈ ci, ∀ b ∈ cj, strLeb (awkField1 b) (awkField1 a) = true := by
    intro i j ci cj hij hi hj
    cases j with
    | zero => omega
    | succ m => simp [singleLiveFile] at hj
  exact claim2_amended hw hs hx rfl

/-- Claim C3 counterexample: with swapped cursors and inclusivity flags,
the forward query returns the SAME sequence as the backward query, not its
reverse. -/

theorem claim3_counterexample :
    ParseRotatedLog (singleLiveFile ["a,x", "b,y"])
      { cursor := some "a", includecursor := true, endcursor := some "c",
        includeendcursor := true, forward := true,
        logparserfn := defaultLogParserFn } = [("b", "y"), ("a", "x")] ∧
    ParseRotatedLog (singleLiveFile ["a,x", "b,y"])
      { cursor := some "c", includecursor := true, endcursor := some "a",
        includeendcursor := true, logparserfn := defaultLogParserFn } =
      [("b", "y"), ("a", "x")] ∧
    ([("b", "y"), ("a", "x")] : List (String × String)) ≠
      ([("b", "y"), ("a", "x")] : List (String × String)).reverse := by
  decide

/-- Claim C3 amended: for non-empty cursors, no limit, and a gap-free log
set (every rotation up to maxRotate present), the forward query with
cursor `c`, endCursor `e` returns exactly the SAME sequence as the backward
query with cursor `e`, endCursor `c` and the inclusivity flags swapped —
equality, not reversal: both walks visit the same files, keep the same
lines, and concatenate the identical per-file blocks in the same order. -/

theorem claim3_amended {α : Type} (files : Nat → Option (List String)) (mr : Nat)
    (c e : String) (ic ie : Bool) (gs : List (String → Bool)) (kw : Option String)
    (p : String → String → Option α)
    (hc : c ≠ "") (he : e ≠ "") (hpres : ∀ i, i ≤ mr → (files i).isSome) :
    ParseRotatedLog files
      { maxrotate := mr, cursor := some c, includecursor := ic, endcursor := some e,
        includeendcursor := ie, forward := true, greps := gs, keyword := kw,
        limit := none, logparserfn := p } =
    ParseRotatedLog files
      { maxrotate := mr, cursor := some e, includecursor := ie, endcursor := some c,
        includeendcursor := ic, forward := false, greps := gs, keyword := kw,
        limit := none, logparserfn := p } := by
  set qf : LogQuery α :=
    { maxrotate := mr, cursor := some c, includecursor := ic, endcursor := some e,
      includeendcursor := ie, forward := true, greps := gs, keyword := kw,
      limit := none, logparserfn := p } with hqf
  set qb : LogQuery α :=
    { maxrotate := mr, cursor := some e, includecursor := ie, endcursor := some c,
      includeendcursor := ic, forward := false, greps := gs, keyword := kw,
      limit := none, logparserfn := p } with hqb
  have hE : fileEntries files qf = fileEntries files qb := by
    funext j
    unfold fileEntries
    cases hfj : files j with
    | none => rfl
    | some content =>
      show (collectLoop p
          (pipelineLines (some c) (some e) ic ie true gs kw none content).reverse none).1 =
        (collectLoop p
          (pipelineLines (some e) (some c) ie ic false gs kw none content).reverse none).1
      rw [pipelineLines_swap hc he ic ie gs kw content]
  have hf := aux_closed_forward files qf rfl hpres (mr + 2) ((mr : Nat) : Int)
    (show (-1 : Int) ≤ ((mr : Nat) : Int) by omega)
    (show ((mr : Nat) : Int) ≤ ((mr : Nat) : Int) by omega)
    (show (((mr : Nat) : Int) + 2).toNat ≤ mr + 2 by omega)
  have hb := aux_closed_backward files qb rfl hpres (mr + 2) 0
    (show (0 : Nat) ≤ mr + 1 by omega)
    (show mr + 2 - 0 ≤ mr + 2 by omega)
  calc ParseRotatedLog files qf
      = parseRotatedLogAux files qf (mr + 2) ((mr : Nat) : Int) none := rfl
    _ = concatUp (fileEntries files qf) 0 (((mr : Nat) : Int) + 1).toNat := hf
    _ = concatUp (fileEntries files qb) 0 (mr + 1 - 0) := by
          rw [hE, show (((mr : Nat) : Int) + 1).toNat = mr + 1 - 0 from by omega]
    _ = parseRotatedLogAux files qb (mr + 2) (((0 : Nat) : Int)) none := hb.symm
    _ = ParseRotatedLog files qb := rfl

/-- Witness for the amended C3 at a concrete single-rotation log set. -/

theorem claim3_witness :
    ParseRotatedLog (singleLiveFile ["a,x", "b,y"])
      { maxrotate := 0, cursor := some "a", includecursor := true, endcursor := some "c",
        includeendcursor := true, forward := true, greps := [], keyword := none,
        limit := none, logparserfn := defaultLogParserFn } =
    ParseRotatedLog (singleLiveFile ["a,x", "b,y"])
      { maxrotate := 0, cursor := some "c", includecursor := true, endcursor := some "a",
        includeendcursor := true, forward := false, greps := [], keyword := none,
        limit := none, logparserfn := defaultLogParserFn } := by
  refine claim3_amended (singleLiveFile ["a,x", "b,y"]) 0 "a" "c" true true [] none
    defaultLogParserFn (by decide) (by decide) ?_
  intro i hi
  cases i with
  | zero => rfl
  | succ n => omega

/-- Claim C5 counterexample: the limited result is not in general a prefix
of the unlimited result: a forward query keeps the earliest lines but still
emits them latest-first (so the limited output is a suffix, not a prefix),
and a backward query whose `tail` window contains a separator-less line
spills the leftover limit into the older rotation instead of returning the
next entry of the live file. -/

theorem claim5_counterexample :
    (ParseRotatedLog (singleLiveFile ["a,x", "b,y"])
        { forward := true, limit := some 1, logparserfn := defaultLogParserFn } =
        [("a", "x")] ∧
     ParseRotatedLog (singleLiveFile ["a,x", "b,y"])
        { forward := true, logparserfn := defaultLogParserFn } =
        [("b", "y"), ("a", "x")] ∧
     ¬(([("a", "x")] : List (String × String)) <+: [("b", "y"), ("a", "x")])) ∧
    (ParseRotatedLog filesC5 { limit := some 2, logparserfn := defaultLogParserFn } =
        [("c", "z"), ("p", "q")] ∧
     ParseRotatedLog filesC5 { logparserfn := defaultLogParserFn } =
        [("c", "z"), ("a", "x"), ("p", "q")] ∧
     ¬(([("c", "z"), ("p", "q")] : List (String × String)) <+:
        [("c", "z"), ("a", "x"), ("p", "q")])) := by
  decide

/-- Claim C5 amended: the length bound always holds — a query with limit N
returns at most N entries — and the prefix property holds for BACKWARD
queries over log sets whose every line yields an entry; it fails in general
for forward queries and for windows containing unparseable lines. -/

theorem claim5_amended :
    (∀ {α : Type} (files : Nat → Option (List String)) (q : LogQuery α) (n : Nat),
      q.limit = some n → (ParseRotatedLog files q).length ≤ n) ∧
    (∀ {α : Type} (files : Nat → Option (List String)) (q : LogQuery α) (n : Nat),
      q.forward = false → q.limit = some n → allParse q.logparserfn files →
      ParseRotatedLog files q <+: ParseRotatedLogNoLimit files q) := by
  constructor
  · intro α files q n h
    unfold ParseRotatedLog
    rw [h]
    exact aux_length_le files q _ _ n
  · intro α files q n hb h hall
    unfold ParseRotatedLog ParseRotatedLogNoLimit
    rw [h, hb]
    simp only [Bool.false_eq_true, if_false]
    exact aux_prefix_backward files q hb hall _ _ _

/-- Witness for the amended C5: the length bound and the backward prefix
property at concrete queries. -/

theorem claim5_witness :
    (ParseRotatedLog filesC5 { limit := some 2, logparserfn := defaultLogParserFn }).length ≤ 2 ∧
    ParseRotatedLog (singleLiveFile ["a,x", "b,y"])
        { limit := some 1, logparserfn := defaultLogParserFn } <+:
      ParseRotatedLogNoLimit (singleLiveFile ["a,x", "b,y"])
        { limit := some 1, logparserfn := defaultLogParserFn } := by
  constructor
  · exact claim5_amended.1 filesC5 _ 2 rfl
  · refine claim5_amended.2 (singleLiveFile ["a,x", "b,y"]) _ 1 rfl rfl ?_
    intro i content hic l hl
    cases i with
    | zero =>
      simp [singleLiveFile] at hic
      subst hic
      simp at hl
      rcases hl with rfl | rfl <;> decide
    | succ n => simp [singleLiveFile] at hic

/-- Witness for C7 at a concrete two-line log with one malformed line. -/
theorem claim7_witness :
    ParseRotatedLog (singleLiveFile ["a,x", "bad"]) { logparserfn := defaultLogParserFn } =
      ((["a,x", "bad"].map stripNulls).reverse.filterMap (lineEntry defaultLogParserFn)) :=
  claim7_malformed_tolerance.1 ["a,x", "bad"] defaultLogParserFn

/-- Witness for C10 at a concrete collection where the parser rejects one
line. -/
theorem claim10_witness :
    (collectLoop parserC10 ["c,z", "b,y"] (some 2)).2 =
      some (2 - (collectLoop parserC10 ["c,z", "b,y"] (some 2)).1.length) :=
  claim10_parser_none_limit.1 parserC10 ["c,z", "b,y"] 2
